import Mathlib

/-!
Verification development for the duetto market-event alerting service.

The Python sources under duetto/ are shallowly embedded: pure fragments become
Lean functions, mutable objects become explicit state values, Python dicts
become association lists in insertion order (later writes overwrite earlier
ones), machine floats are idealised as rationals, and fallible code returns
Option/Except.  Names follow the source where Lean allows it.
-/

namespace Duetto

/-- Priority level of an alert (duetto/models/alert.py, class AlertPriority),
with the total order LOW < MEDIUM < HIGH used by the filters. -/
inductive AlertPriority where
  | high
  | medium
  | low
deriving DecidableEq, Repr

/-- Type of market alert (duetto/models/alert.py, class AlertType). -/
inductive AlertType where
  | sec8k
  | secS3
  | secForm4
  | sec6k
  | fdaApproval
  | fdaPdufa
  | fdaTrial
  | prNews
  | stockMovement
deriving DecidableEq, Repr

/-- A value stored in an alert's raw_data dict.  Only the "catalysts" entry
(a list of category labels) is inspected by the embedded code; other payloads
(strings, nested dicts, ...) are collapsed into opaque tags. -/
inductive RawVal where
  | strVal (s : String)
  | listVal (l : List String)
  | otherVal (tag : Nat)
deriving DecidableEq, Repr

/-- Market alert record (duetto/models/alert.py, class Alert).  The datetime
timestamp is modelled as a Nat; raw_data is an association list standing for
the Python dict (keys unique, insertion order). -/
structure Alert where
  id : String
  type : AlertType
  priority : AlertPriority
  ticker : Option String := none
  company : String
  title : String
  summary : String
  url : String
  source : String
  timestamp : Nat := 0
  raw_data : Option (List (String × RawVal)) := none
deriving DecidableEq, Repr

/-- Index of a priority in priority_order = [LOW, MEDIUM, HIGH]
(alert_filter.py line 75, alert_engine.py line 235). -/
def priorityIndex : AlertPriority → Nat
  | .low => 0
  | .medium => 1
  | .high => 2

/-- ASCII lowercasing of one character; model of Python str.lower() and of
re.IGNORECASE on the ASCII texts handled here. -/
def asciiLower (c : Char) : Char :=
  if 'A' ≤ c ∧ c ≤ 'Z' then Char.ofNat (c.toNat + 32) else c

/-- Python str.lower() on a whole string (ASCII model). -/
def pyLower (s : String) : String := ⟨s.data.map asciiLower⟩

/-- Regex word character [a-zA-Z0-9_], as used by the \b anchor. -/
def isWordChar (c : Char) : Bool :=
  decide (('a' ≤ c ∧ c ≤ 'z') ∨ ('A' ≤ c ∧ c ≤ 'Z') ∨ ('0' ≤ c ∧ c ≤ '9') ∨ c = '_')

/-- Element of the small regex fragment used by alert_filter.py:
a literal character, a character class such as [123], an optional class such
as [sd]?, the word boundary \b, and .* (which does not cross a newline). -/
inductive RElem where
  | lit (c : Char)
  | cls (cs : List Char)
  | opt (cs : List Char)
  | wb
  | anystar
deriving DecidableEq, Repr

/-- Does the pattern match a prefix of the text?  prev is the character just
before the current position (needed for \b).  Mirrors re semantics for the
pattern fragment above.  The fuel argument only makes the recursion
structural (so that the kernel can evaluate it): every recursive call
strictly decreases ps.length + s.length, so with the starting fuel
ps.length + s.length + 1 supplied by matchElems the 0 case is never
reached. -/
def matchElemsF : Nat → List RElem → Option Char → List Char → Bool
  | 0, _, _, _ => false
  | _ + 1, [], _, _ => true
  | fuel + 1, .wb :: ps, prev, s =>
      let nextW : Bool := match s with | c :: _ => isWordChar c | [] => false
      let prevW : Bool := match prev with | some c => isWordChar c | none => false
      (prevW != nextW) && matchElemsF fuel ps prev s
  | fuel + 1, .lit c :: ps, _, d :: s => (d == c) && matchElemsF fuel ps (some d) s
  | _ + 1, .lit _ :: _, _, [] => false
  | fuel + 1, .cls cs :: ps, _, d :: s => cs.contains d && matchElemsF fuel ps (some d) s
  | _ + 1, .cls _ :: _, _, [] => false
  | fuel + 1, .opt _ :: ps, prev, [] => matchElemsF fuel ps prev []
  | fuel + 1, .opt cs :: ps, prev, d :: s =>
      matchElemsF fuel ps prev (d :: s) || (cs.contains d && matchElemsF fuel ps (some d) s)
  | fuel + 1, .anystar :: ps, prev, [] => matchElemsF fuel ps prev []
  | fuel + 1, .anystar :: ps, prev, d :: s =>
      matchElemsF fuel ps prev (d :: s) ||
        ((d != '\n') && matchElemsF fuel (.anystar :: ps) (some d) s)

/-- Entry point of the prefix matcher with sufficient fuel. -/
def matchElems (ps : List RElem) (prev : Option Char) (s : List Char) : Bool :=
  matchElemsF (ps.length + s.length + 1) ps prev s

/-- re.search scanning: try to match at every position of the text. -/
def reSearchFrom (p : List RElem) : Option Char → List Char → Bool
  | prev, [] => matchElems p prev []
  | prev, c :: s => matchElems p prev (c :: s) || reSearchFrom p (some c) s

/-- pattern.search(text): true iff the pattern matches somewhere in text. -/
def reSearch (p : List RElem) (text : List Char) : Bool :=
  reSearchFrom p none text

/-- Literal part of a pattern string. -/
def litStr (s : String) : List RElem := s.data.map RElem.lit

/-- Pattern of shape \b<literal>\b. -/
def wordPat (s : String) : List RElem := RElem.wb :: (litStr s ++ [RElem.wb])

/-- CATALYST_PATTERNS from alert_filter.py (lines 10-39), in the insertion
order of the Python dict literal.  All literals are lower case; matching is
performed against lowercased text (re.IGNORECASE model). -/
def CATALYST_PATTERNS : List (String × List (List RElem)) :=
  [ ("merger_acquisition",
      [wordPat "merger", wordPat "acquisition",
       RElem.wb :: (litStr "acquire" ++ [RElem.opt ['s', 'd'], RElem.wb]),
       wordPat "buyout", wordPat "tender offer", wordPat "definitive agreement",
       wordPat "going private", wordPat "takeover"]),
    ("fda_catalyst",
      [wordPat "fda", wordPat "pdufa", wordPat "approval", wordPat "clearance",
       RElem.wb :: (litStr "phase " ++ [RElem.cls ['1', '2', '3'], RElem.wb]),
       wordPat "clinical trial", wordPat "nda", wordPat "bla",
       wordPat "inda", wordPat "breakthrough therapy"]),
    ("offering_dilution",
      [wordPat "offering", wordPat "placement", wordPat "dilution",
       wordPat "shelf registration", wordPat "s-3", wordPat "securities act",
       wordPat "prospectus", wordPat "warrant"]),
    ("contract_partnership",
      [wordPat "contract", wordPat "agreement", wordPat "partnership",
       wordPat "license", wordPat "collaboration", wordPat "alliance",
       wordPat "distribution", wordPat "supply agreement"]),
    ("insider_activity",
      [wordPat "form 4", wordPat "insider", wordPat "director", wordPat "officer",
       wordPat "purchase", wordPat "acquisition of", wordPat "open market"]),
    ("bankruptcy_restructuring",
      [wordPat "bankruptcy", wordPat "chapter 11", wordPat "chapter 7",
       wordPat "restructuring", wordPat "default", wordPat "insolvency"]) ]

/-- NOISE_PATTERNS from alert_filter.py (lines 42-49). -/
def NOISE_PATTERNS : List (List RElem) :=
  [ RElem.wb :: (litStr "routine" ++ [RElem.wb, RElem.anystar, RElem.wb] ++
      litStr "filing" ++ [RElem.wb]),
    wordPat "quarterly report",
    wordPat "annual report",
    wordPat "10-k",
    wordPat "10-q",
    wordPat "proxy statement" ]

/-- Constructor arguments of AlertFilter (alert_filter.py lines 55-63); the
compiled pattern sets are module-level constants and need no state. -/
structure AlertFilter where
  min_priority : AlertPriority := .low
  filter_noise : Bool := true
  catalyst_types : Option (List String) := none
deriving Repr

/-- Lowercased concatenation text = f"{title} {summary}".lower() used by
classify_catalysts (alert_filter.py line 93). -/
def alertText (a : Alert) : List Char :=
  ((a.title ++ " " ++ a.summary).data).map asciiLower

/-- AlertFilter.classify_catalysts (alert_filter.py lines 91-102): the
category labels whose pattern set has at least one match, in dict order;
the inner break makes each category contribute at most once. -/
def classify_catalysts (a : Alert) : List String :=
  (CATALYST_PATTERNS.filter (fun cp => cp.2.any (fun p => reSearch p (alertText a)))).map
    Prod.fst

/-- AlertFilter._is_noise (alert_filter.py lines 122-130).  The source does
not lowercase the text but compiles the patterns with re.IGNORECASE, which on
ASCII text is equivalent to matching the lowercase patterns against the
lowercased text. -/
def is_noise (a : Alert) : Bool :=
  NOISE_PATTERNS.any (fun p => reSearch p (((a.title ++ " " ++ a.summary).data).map asciiLower))

/-- AlertFilter.should_pass (alert_filter.py lines 72-89).  A falsy
catalyst_types (None or empty list) disables the catalyst allow-list. -/
def should_pass (f : AlertFilter) (a : Alert) : Bool :=
  if priorityIndex a.priority < priorityIndex f.min_priority then false
  else if f.filter_noise && is_noise a then false
  else
    match f.catalyst_types with
    | none => true
    | some types =>
        if types.isEmpty then true
        else (classify_catalysts a).any (fun c => types.contains c)

/-- Lookup in a raw_data dict (first binding of the key). -/
def dictFind (m : List (String × RawVal)) (k : String) : Option RawVal :=
  (m.find? (fun p => p.1 == k)).map Prod.snd

/-- Python dict assignment d[k] = v: replace in place if the key exists,
else append preserving insertion order. -/
def dictSet (m : List (String × RawVal)) (k : String) (v : RawVal) : List (String × RawVal) :=
  if m.any (fun p => p.1 == k) then m.map (fun p => if p.1 == k then (k, v) else p)
  else m ++ [(k, v)]

/-- AlertFilter.enhance_alert (alert_filter.py lines 104-120): classify, then
upgrade priority for high-value catalysts, then store the catalysts list in
raw_data (creating the dict if it was None). -/
def enhance_alert (a : Alert) : Alert :=
  let catalysts := classify_catalysts a
  let priority1 :=
    if catalysts.any (fun c => ["merger_acquisition", "fda_catalyst",
        "bankruptcy_restructuring"].contains c) then
      AlertPriority.high
    else if catalysts.any (fun c => ["contract_partnership", "insider_activity"].contains c) then
      (if a.priority = .low then AlertPriority.medium else a.priority)
    else a.priority
  let rd := match a.raw_data with | none => [] | some m => m
  { a with priority := priority1,
           raw_data := some (dictSet rd "catalysts" (RawVal.listVal catalysts)) }

/-- AlertEngine._should_notify (alert_engine.py lines 232-244). -/
def _should_notify (notify_min_priority : String) (a : Alert) : Bool :=
  let mp := pyLower notify_min_priority
  let minLevel := priorityIndex
    (if mp = "high" then AlertPriority.high
     else if mp = "medium" then AlertPriority.medium
     else AlertPriority.low)
  decide (minLevel ≤ priorityIndex a.priority)

/-- Observable outcome of AlertEngine._process_alert for one alert: the alert
object after the in-place enhance_alert mutation, whether it passed the
filter, and whether it was stored in recent alerts, broadcast to websocket
clients, and sent to external notifiers. -/
structure ProcessOutcome where
  enhanced : Alert
  passed : Bool
  stored : Bool
  broadcasted : Bool
  notified : Bool
deriving Repr

/-- Pure skeleton of AlertEngine._process_alert (alert_engine.py lines
192-230): enhance first, then the filter; a drop returns before storing,
broadcasting and notifying.  has_notifier models self._notifier being
configured. -/
def _process_alert (f : AlertFilter) (notify_min_priority : String) (has_notifier : Bool)
    (a : Alert) : ProcessOutcome :=
  let a1 := enhance_alert a
  let p := should_pass f a1
  { enhanced := a1
    passed := p
    stored := p
    broadcasted := p
    notified := p && (has_notifier && _should_notify notify_min_priority a1) }

theorem dictFind_map_set (m : List (String × RawVal)) (k : String) (v : RawVal)
    (h : m.any (fun p => p.1 == k) = true) :
    dictFind (m.map (fun p => if p.1 == k then (k, v) else p)) k = some v := by
  induction m with
  | nil => simp at h
  | cons p m ih =>
      by_cases hp : p.1 = k
      · simp [dictFind, hp]
      · have h' : m.any (fun p => p.1 == k) = true := by
          simp only [List.any_cons, Bool.or_eq_true, beq_iff_eq] at h
          rcases h with h | h
          · exact absurd h hp
          · simpa using h
        have := ih h'
        simpa [dictFind, hp] using this

theorem dictFind_append_set (m : List (String × RawVal)) (k : String) (v : RawVal)
    (h : m.any (fun p => p.1 == k) = false) :
    dictFind (m ++ [(k, v)]) k = some v := by
  induction m with
  | nil => simp [dictFind]
  | cons p m ih =>
      simp only [List.any_cons, Bool.or_eq_false_iff] at h
      have step : dictFind ((p :: m) ++ [(k, v)]) k = dictFind (m ++ [(k, v)]) k := by
        simp only [dictFind, List.cons_append]
        rw [List.find?_cons_of_neg]
        simp [h.1]
      rw [step]
      exact ih h.2

/-- Inserting the "catalysts" binding makes it the binding the next lookup
finds, whatever the dict held before. -/
theorem dictFind_dictSet (m : List (String × RawVal)) (k : String) (v : RawVal) :
    dictFind (dictSet m k v) k = some v := by
  by_cases h : m.any (fun p => p.1 == k) = true
  · simpa [dictSet, h] using dictFind_map_set m k v h
  · have h' : m.any (fun p => p.1 == k) = false := by
      simp only [Bool.not_eq_true] at h
      exact h
    simpa [dictSet, h'] using dictFind_append_set m k v h'

theorem any_contains_eq (cats : List String) (l : List String) :
    cats.any (fun c => l.contains c) = true ↔ ∃ c ∈ l, c ∈ cats := by
  simp only [List.any_eq_true, List.elem_iff]
  exact ⟨fun ⟨c, h1, h2⟩ => ⟨c, h2, h1⟩, fun ⟨c, h1, h2⟩ => ⟨c, h2, h1⟩⟩

/-- C1: enhance_alert upgrades priority exactly as specified: any of
merger_acquisition / fda_catalyst / bankruptcy_restructuring among the
matched categories gives HIGH; otherwise any of contract_partnership /
insider_activity on a LOW alert gives MEDIUM; otherwise the priority is
unchanged — and the output priority is never below the input priority in the
order LOW < MEDIUM < HIGH. -/
theorem enhance_alert_priority_rule (a : Alert) :
    ((enhance_alert a).priority =
      (if "merger_acquisition" ∈ classify_catalysts a ∨ "fda_catalyst" ∈ classify_catalysts a ∨
          "bankruptcy_restructuring" ∈ classify_catalysts a then AlertPriority.high
       else if ("contract_partnership" ∈ classify_catalysts a ∨
            "insider_activity" ∈ classify_catalysts a) ∧ a.priority = AlertPriority.low then
         AlertPriority.medium
       else a.priority)) ∧
    priorityIndex a.priority ≤ priorityIndex (enhance_alert a).priority := by
  have hhi : ((classify_catalysts a).any fun c =>
      (["merger_acquisition", "fda_catalyst", "bankruptcy_restructuring"]).contains c) = true ↔
      ("merger_acquisition" ∈ classify_catalysts a ∨ "fda_catalyst" ∈ classify_catalysts a ∨
        "bankruptcy_restructuring" ∈ classify_catalysts a) := by
    rw [any_contains_eq]; simp
  have hmed : ((classify_catalysts a).any fun c =>
      (["contract_partnership", "insider_activity"]).contains c) = true ↔
      ("contract_partnership" ∈ classify_catalysts a ∨
        "insider_activity" ∈ classify_catalysts a) := by
    rw [any_contains_eq]; simp
  have hp : (enhance_alert a).priority =
      (if ((classify_catalysts a).any fun c =>
          (["merger_acquisition", "fda_catalyst", "bankruptcy_restructuring"]).contains c) then
        AlertPriority.high
       else if ((classify_catalysts a).any fun c =>
          (["contract_partnership", "insider_activity"]).contains c) then
         (if a.priority = AlertPriority.low then AlertPriority.medium else a.priority)
       else a.priority) := rfl
  constructor
  · rw [hp]
    by_cases h1 : "merger_acquisition" ∈ classify_catalysts a ∨
        "fda_catalyst" ∈ classify_catalysts a ∨
        "bankruptcy_restructuring" ∈ classify_catalysts a
    · rw [if_pos (hhi.mpr h1), if_pos h1]
    · rw [if_neg (fun hb => h1 (hhi.mp hb)), if_neg h1]
      by_cases h2 : "contract_partnership" ∈ classify_catalysts a ∨
          "insider_activity" ∈ classify_catalysts a
      · rw [if_pos (hmed.mpr h2)]
        by_cases h3 : a.priority = AlertPriority.low
        · rw [if_pos h3, if_pos ⟨h2, h3⟩]
        · rw [if_neg h3, if_neg (fun hc => h3 hc.2)]
      · rw [if_neg (fun hb => h2 (hmed.mp hb)), if_neg (fun hc => h2 hc.1)]
  · rw [hp]
    by_cases h1 : ((classify_catalysts a).any fun c =>
        (["merger_acquisition", "fda_catalyst", "bankruptcy_restructuring"]).contains c) = true
    · rw [if_pos h1]
      cases a.priority <;> decide
    · rw [if_neg h1]
      by_cases h2 : ((classify_catalysts a).any fun c =>
          (["contract_partnership", "insider_activity"]).contains c) = true
      · rw [if_pos h2]
        by_cases h3 : a.priority = AlertPriority.low
        · rw [if_pos h3, h3]
          decide
        · rw [if_neg h3]
      · rw [if_neg h2]

/-- C2 (amended): an alert matching a noise pattern, under a filter configured
with filter_noise=true, is dropped by the engine — not stored, not broadcast,
not notified — but only after enhance_alert has stored the catalyst
classification on the alert object. -/
theorem noise_alert_dropped_after_classification (f : AlertFilter) (nm : String) (hn : Bool)
    (a : Alert) (hf : f.filter_noise = true) (hnoise : is_noise a = true) :
    (_process_alert f nm hn a).broadcasted = false ∧
    (_process_alert f nm hn a).stored = false ∧
    (_process_alert f nm hn a).notified = false ∧
    ∃ m, (_process_alert f nm hn a).enhanced.raw_data = some m ∧
      dictFind m "catalysts" = some (RawVal.listVal (classify_catalysts a)) := by
  have htext : is_noise (enhance_alert a) = true := by
    have heq : is_noise (enhance_alert a) = is_noise a := by
      simp [is_noise, enhance_alert]
    rw [heq, hnoise]
  have hpass : should_pass f (enhance_alert a) = false := by
    unfold should_pass
    by_cases h1 : priorityIndex (enhance_alert a).priority < priorityIndex f.min_priority
    · simp [h1]
    · simp [h1, hf, htext]
  refine ⟨?_, ?_, ?_, ?_⟩
  · simp [_process_alert, hpass]
  · simp [_process_alert, hpass]
  · simp [_process_alert, hpass]
  · exact ⟨_, rfl, dictFind_dictSet _ _ _⟩

/-- Alert used in the spec's boundary scenario 5 (a routine quarterly
report). -/
def quarterlyAlert : Alert :=
  { id := "q1", type := .sec8k, priority := .low, ticker := none, company := "ACME CORP",
    title := "Quarterly Report", summary := "", url := "https://sec.example/q",
    source := "SEC EDGAR", timestamp := 0, raw_data := none }

/-- C2 counterexample: the engine enhances before it filters, so the dropped
noise alert does carry a stored catalysts entry in raw_data — classification
is stored before the drop, contradicting the claim that a noise alert is
dropped before its classification is stored. -/
theorem noise_drop_stores_classification_counterexample :
    (_process_alert {} "medium" true quarterlyAlert).broadcasted = false ∧
    (_process_alert {} "medium" true quarterlyAlert).notified = false ∧
    dictFind (((_process_alert {} "medium" true quarterlyAlert).enhanced.raw_data).getD [])
        "catalysts" = some (RawVal.listVal []) := by
  decide

/-- Witness for the amended C2 theorem at the concrete quarterly-report
alert under the engine's filter configuration. -/
theorem noise_alert_dropped_after_classification_witness :
    (_process_alert {} "medium" true quarterlyAlert).broadcasted = false ∧
    (_process_alert {} "medium" true quarterlyAlert).stored = false ∧
    (_process_alert {} "medium" true quarterlyAlert).notified = false ∧
    ∃ m, (_process_alert {} "medium" true quarterlyAlert).enhanced.raw_data = some m ∧
      dictFind m "catalysts" = some (RawVal.listVal (classify_catalysts quarterlyAlert)) :=
  noise_alert_dropped_after_classification {} "medium" true quarterlyAlert rfl (by decide)

/-- C10: after enhance_alert, raw_data is always a dict binding "catalysts"
to the (possibly empty) list of matched categories, with each category
appearing at most once; in particular every alert the engine broadcasts
carries such a catalysts list. -/
theorem enhance_alert_always_stores_catalysts (f : AlertFilter) (nm : String) (hn : Bool)
    (a : Alert) :
    (∃ m, (enhance_alert a).raw_data = some m ∧
        dictFind m "catalysts" = some (RawVal.listVal (classify_catalysts a))) ∧
    (classify_catalysts a).Nodup ∧
    ((_process_alert f nm hn a).broadcasted = true →
      ∃ m, (_process_alert f nm hn a).enhanced.raw_data = some m ∧
        dictFind m "catalysts" = some (RawVal.listVal (classify_catalysts a))) := by
  refine ⟨⟨_, rfl, dictFind_dictSet _ _ _⟩, ?_, fun _ => ⟨_, rfl, dictFind_dictSet _ _ _⟩⟩
  have hnd : (CATALYST_PATTERNS.map Prod.fst).Nodup := by decide
  have hsub : List.Sublist (classify_catalysts a) (CATALYST_PATTERNS.map Prod.fst) :=
    List.Sublist.map Prod.fst (List.filter_sublist _)
  exact List.Nodup.sublist hsub hnd

/-- Alert matching the spec's boundary scenario 1 (definitive merger
agreement), which passes the default engine filter. -/
def mergerAlert : Alert :=
  { id := "m1", type := .sec8k, priority := .low, ticker := some "ACME", company := "ACME CORP",
    title := "8-K: ACME CORP",
    summary := "ACME CORP entered a definitive agreement to merge with Beta Inc",
    url := "https://sec.example/m", source := "SEC EDGAR", timestamp := 0, raw_data := none }

/-- Witness for C10: a concrete alert that is broadcast, and it carries the
stored catalysts list. -/
theorem enhance_alert_always_stores_catalysts_witness :
    (_process_alert {} "medium" true mergerAlert).broadcasted = true ∧
    ∃ m, (_process_alert {} "medium" true mergerAlert).enhanced.raw_data = some m ∧
      dictFind m "catalysts" = some (RawVal.listVal (classify_catalysts mergerAlert)) := by
  have hb : (_process_alert {} "medium" true mergerAlert).broadcasted = true := by decide
  exact ⟨hb, (enhance_alert_always_stores_catalysts {} "medium" true mergerAlert).2.2 hb⟩

/-- Bounded LRU cache of string keys (duetto/utils/cache.py, class LRUCache).
The Python dict self.cache is modelled by its key list in insertion order,
oldest first: pop-and-reinsert moves a key to the end, next(iter(...)) is the
head, and del removes it. -/
structure LRUCache where
  capacity : Nat := 1000
  cache : List String := []
deriving DecidableEq, Repr

/-- LRUCache.add (cache.py lines 11-31): returns true iff the key was absent;
a re-added key moves to the most-recent end; exceeding capacity evicts the
oldest entry. -/
def LRUCache.add (c : LRUCache) (key : String) : Bool × LRUCache :=
  if c.cache.contains key then
    (false, { c with cache := c.cache.erase key ++ [key] })
  else
    let l := c.cache ++ [key]
    (true, { c with cache := if l.length > c.capacity then l.tail else l })

/-- Sequence of add calls folded over a cache. -/
def LRUCache.runAdds (c : LRUCache) (ks : List String) : LRUCache :=
  ks.foldl (fun c k => (c.add k).2) c

theorem drop_append_drop {α : Type} (d e : Nat) (X ks : List α) (hdX : d ≤ X.length) :
    (X.drop d ++ ks).drop e = ((X ++ ks).drop d).drop e := by
  have h1 : (X ++ ks).drop d = X.drop d ++ ks := by
    rw [List.drop_append_eq_append_drop, Nat.sub_eq_zero_of_le hdX, List.drop_zero]
  rw [h1]

/-- Invariant of a run of adds with keys that are mutually distinct and fresh
for the cache: the capacity is unchanged and the cache holds the last
capacity-many of the old keys followed by the new ones. -/
theorem LRUCache.runAdds_fresh (ks : List String) : ∀ (c : LRUCache),
    (c.cache ++ ks).Nodup → c.cache.length ≤ c.capacity →
    (c.runAdds ks).capacity = c.capacity ∧
    (c.runAdds ks).cache =
      (c.cache ++ ks).drop ((c.cache.length + ks.length) - c.capacity) := by
  induction ks with
  | nil =>
      intro c _ hlen
      refine ⟨rfl, ?_⟩
      simp [LRUCache.runAdds, Nat.sub_eq_zero_of_le hlen]
  | cons k ks ih =>
      intro c hnd hlen
      have hdisj := List.disjoint_of_nodup_append hnd
      have hk : ¬ c.cache.contains k = true := by
        intro hc
        exact hdisj (List.elem_iff.mp hc) (List.mem_cons_self k ks)
      have hstep : (c.add k).2.cache =
          (c.cache ++ [k]).drop ((c.cache.length + 1) - c.capacity) := by
        unfold LRUCache.add
        rw [if_neg hk]
        show (if (c.cache ++ [k]).length > c.capacity then (c.cache ++ [k]).tail
             else c.cache ++ [k]) = _
        by_cases hov : (c.cache ++ [k]).length > c.capacity
        · rw [if_pos hov]
          have h1 : (c.cache.length + 1) - c.capacity = 1 := by
            simp only [List.length_append, List.length_singleton] at hov
            omega
          rw [h1, List.drop_one]
        · rw [if_neg hov]
          have h0 : (c.cache.length + 1) - c.capacity = 0 := by
            simp only [List.length_append, List.length_singleton, gt_iff_lt,
              Nat.not_lt] at hov
            omega
          rw [h0, List.drop_zero]
      have hcap2 : (c.add k).2.capacity = c.capacity := by
        unfold LRUCache.add
        rw [if_neg hk]
      have hlen2 : (c.add k).2.cache.length ≤ c.capacity := by
        rw [hstep, List.length_drop]
        simp only [List.length_append, List.length_singleton]
        omega
      have hnd2 : ((c.add k).2.cache ++ ks).Nodup := by
        have hsub : List.Sublist ((c.add k).2.cache ++ ks) ((c.cache ++ [k]) ++ ks) := by
          rw [hstep]
          exact List.Sublist.append (List.drop_sublist _ _) (List.Sublist.refl ks)
        have hnd' : ((c.cache ++ [k]) ++ ks).Nodup := by simpa using hnd
        exact List.Nodup.sublist hsub hnd'
      obtain ⟨ihcap, ihcache⟩ := ih (c.add k).2 hnd2 (by rw [hcap2]; exact hlen2)
      have hrun : c.runAdds (k :: ks) = (c.add k).2.runAdds ks := rfl
      refine ⟨by rw [hrun, ihcap, hcap2], ?_⟩
      rw [hrun, ihcache, hstep, hcap2]
      have hassoc : c.cache ++ k :: ks = (c.cache ++ [k]) ++ ks := by simp
      rw [hassoc]
      rw [drop_append_drop _ _ _ _
        (by simp only [List.length_append, List.length_singleton]; omega)]
      rw [List.drop_drop]
      congr 1
      simp only [List.length_drop, List.length_append, List.length_singleton,
        List.length_cons, List.length_nil]
      omega

/-- C3: LRUCache.add returns true exactly when the key was absent, and a run
of capacity + n distinct adds into an empty cache leaves exactly capacity
keys, all first n added keys having been evicted (least-recently-added
eviction). -/
theorem lru_add_iff_absent_and_eviction :
    (∀ (c : LRUCache) (k : String), (c.add k).1 = true ↔ k ∉ c.cache) ∧
    (∀ (cap n : Nat) (ks : List String), ks.Nodup → ks.length = cap + n → 1 ≤ n →
      (LRUCache.runAdds { capacity := cap, cache := [] } ks).cache = ks.drop n ∧
      (LRUCache.runAdds { capacity := cap, cache := [] } ks).cache.length = cap ∧
      ∀ x ∈ ks.take n, x ∉ (LRUCache.runAdds { capacity := cap, cache := [] } ks).cache) := by
  constructor
  · intro c k
    unfold LRUCache.add
    by_cases hc : c.cache.contains k = true
    · simp [hc, List.elem_iff.mp hc]
    · have hk : k ∉ c.cache := fun hm => hc (List.elem_iff.mpr hm)
      simp [hc, hk]
  · intro cap n ks hnd hlen hn
    obtain ⟨-, hcache⟩ := LRUCache.runAdds_fresh ks { capacity := cap, cache := [] }
      (by simpa using hnd) (by simp)
    have hdrop : (LRUCache.runAdds { capacity := cap, cache := [] } ks).cache = ks.drop n := by
      rw [hcache]
      simp only [List.nil_append, List.length_nil, Nat.zero_add]
      congr 1
      omega
    refine ⟨hdrop, ?_, ?_⟩
    · rw [hdrop, List.length_drop]
      omega
    · intro x hx hx'
      rw [hdrop] at hx'
      exact (List.disjoint_take_drop hnd (le_refl n)) hx hx'

/-- Witness for C3: capacity 2, three distinct adds; two keys remain and the
first key added is gone. -/
theorem lru_add_iff_absent_and_eviction_witness :
    (["a", "b", "c"] : List String).Nodup ∧
    (LRUCache.runAdds { capacity := 2, cache := [] } ["a", "b", "c"]).cache = ["b", "c"] ∧
    (LRUCache.runAdds { capacity := 2, cache := [] } ["a", "b", "c"]).cache.length = 2 ∧
    ("a" ∉ (LRUCache.runAdds { capacity := 2, cache := [] } ["a", "b", "c"]).cache) ∧
    ((LRUCache.mk 2 ["a", "b"]).add "c").1 = true := by
  have h := lru_add_iff_absent_and_eviction.2 2 1 ["a", "b", "c"] (by decide) (by decide)
    (by decide)
  refine ⟨by decide, ?_, h.2.1, ?_, ?_⟩
  · rw [h.1]
    decide
  · exact h.2.2 "a" (by decide)
  · exact (lru_add_iff_absent_and_eviction.1 (LRUCache.mk 2 ["a", "b"]) "c").mpr (by decide)

/-- Minimal alert with a given id, used to drive the dedup processor (only
the id field matters to it). -/
def mkPlainAlert (id : String) : Alert :=
  { id := id, type := .sec8k, priority := .low, ticker := none, company := "c", title := "t",
    summary := "s", url := "u", source := "SEC EDGAR", timestamp := 0, raw_data := none }

/-- State of DedupProcessor (duetto/processors/dedup.py lines 10-14): the
Python set self.seen is modelled by the list of its elements (duplicate-free
in every reachable state); max_size is the constructor capacity, default
1000 (the engine constructs DedupProcessor() with the default). -/
structure DedupState where
  seen : List String := []
  max_size : Nat := 1000
deriving Repr

/-- Python set.pop() removes and returns an arbitrary element; the CPython
documentation gives no guarantee which.  An eviction choice is faithful to
set.pop() iff on every nonempty duplicate-free element list it removes
exactly one element. -/
def IsSetPop (pick : List String → List String) : Prop :=
  ∀ l : List String, l ≠ [] → l.Nodup → ∃ x ∈ l, pick l = l.erase x

/-- DedupProcessor.process (dedup.py lines 16-24), parameterised by the
eviction choice pick standing for set.pop(). -/
def dedup_process (pick : List String → List String) (st : DedupState) (a : Alert) :
    Option Alert × DedupState :=
  if st.seen.contains a.id then (none, st)
  else
    let s := st.seen ++ [a.id]
    if s.length > st.max_size then (some a, { st with seen := pick s })
    else (some a, { st with seen := s })

/-- Run of the dedup processor over a list of alerts, collecting the
pass/drop decisions. -/
def dedupRun (pick : List String → List String) :
    DedupState → List Alert → List (Option Alert) × DedupState
  | st, [] => ([], st)
  | st, a :: as =>
      let r := dedup_process pick st a
      let rest := dedupRun pick r.2 as
      (r.1 :: rest.1, rest.2)

/-- The dedup behaviour that "backed by a RecencyCache keyed on Alert.id"
prescribes: add(id) returning false means drop (spec section 4.4). -/
def lruDedupStep (c : LRUCache) (a : Alert) : Option Alert × LRUCache :=
  let r := c.add a.id
  (if r.1 then some a else none, r.2)

/-- Run of the recency-cache-backed dedup over a list of alerts. -/
def lruDedupRun : LRUCache → List Alert → List (Option Alert) × LRUCache
  | c, [] => ([], c)
  | c, a :: as =>
      let r := lruDedupStep c a
      let rest := lruDedupRun r.2 as
      (r.1 :: rest.1, rest.2)

/-- C4 as stated: (1) per-id idempotence — while an id is in the seen set the
processor drops, and a fresh id passes; (2) the default processor is backed
by a recency cache keyed on Alert.id with capacity at least 1000, i.e. for
some cap ≥ 1000 its pass/drop decisions coincide with those of an LRUCache of
capacity cap on every alert sequence, whichever element set.pop removes. -/
def DedupClaimC4 : Prop :=
  (∀ pick : List String → List String, IsSetPop pick →
    ∀ (st : DedupState) (a : Alert),
      (a.id ∈ st.seen → dedup_process pick st a = (none, st)) ∧
      (a.id ∉ st.seen → (dedup_process pick st a).1 = some a)) ∧
  (∀ pick : List String → List String, IsSetPop pick →
    ∃ cap, 1000 ≤ cap ∧
      ∀ alerts : List Alert,
        (dedupRun pick { seen := [], max_size := 1000 } alerts).1 =
          (lruDedupRun { capacity := cap, cache := [] } alerts).1)

/-- Key made of n copies of the letter a. -/
def aId (n : Nat) : String := ⟨List.replicate n 'a'⟩

theorem aId_injective : Function.Injective aId := by
  intro m n h
  have hdata : List.replicate m 'a' = List.replicate n 'a' := congrArg String.data h
  have hlen := congrArg List.length hdata
  simpa using hlen

/-- The first 1000 distinct ids of the counterexample run. -/
def idsA : List String := (List.range 1000).map aId

/-- The 1001st distinct id. -/
def bId : String := aId 1000

/-- The counterexample alert sequence: 1001 distinct ids, the last one
repeated. -/
def seqC4 : List Alert := idsA.map mkPlainAlert ++ [mkPlainAlert bId, mkPlainAlert bId]

theorem idsA_bId_nodup : (idsA ++ [bId]).Nodup := by
  have hfuse : (List.range 1001).map aId = idsA ++ [bId] := by
    rw [show (1001 : Nat) = 1000 + 1 from rfl, List.range_succ, List.map_append]
    rfl
  rw [← hfuse]
  exact (List.nodup_range 1001).map aId_injective

theorem bId_not_mem_idsA : bId ∉ idsA := by
  intro hmem
  have hdisj := List.disjoint_of_nodup_append idsA_bId_nodup
  exact hdisj hmem (by simp)

/-- dropLast is a faithful refinement of set.pop(): it removes exactly one
element of every nonempty duplicate-free list (the most recently added one,
which set.pop is free to pick). -/
theorem isSetPop_dropLast : IsSetPop (fun l => l.dropLast) := by
  intro l hne hnd
  refine ⟨l.getLast hne, List.getLast_mem hne, ?_⟩
  have hsplit : l.dropLast ++ [l.getLast hne] = l := List.dropLast_append_getLast hne
  have hnotmem : l.getLast hne ∉ l.dropLast := by
    intro hmem
    have hnd' : (l.dropLast ++ [l.getLast hne]).Nodup := by rw [hsplit]; exact hnd
    exact (List.disjoint_of_nodup_append hnd') hmem (by simp)
  calc l.dropLast = l.dropLast ++ ([l.getLast hne].erase (l.getLast hne)) := by simp
    _ = (l.dropLast ++ [l.getLast hne]).erase (l.getLast hne) :=
        (List.erase_append_right _ hnotmem).symm
    _ = l.erase (l.getLast hne) := by rw [hsplit]

/-- Running the dedup processor over fresh distinct ids below capacity: every
alert passes and the ids accumulate in the seen set. -/
theorem dedupRun_fresh (pick : List String → List String) (ids : List String) :
    ∀ (st : DedupState),
    (st.seen ++ ids).Nodup → st.seen.length + ids.length ≤ st.max_size →
    dedupRun pick st (ids.map mkPlainAlert) =
      (ids.map (fun i => some (mkPlainAlert i)), { st with seen := st.seen ++ ids }) := by
  induction ids with
  | nil =>
      intro st _ _
      simp [dedupRun]
  | cons i ids ih =>
      intro st hnd hlen
      have hdisj := List.disjoint_of_nodup_append hnd
      have hfresh : ¬ (st.seen.contains (mkPlainAlert i).id = true) := by
        intro hc
        exact hdisj (List.elem_iff.mp hc) (List.mem_cons_self i ids)
      have hov : ¬ ((st.seen ++ [(mkPlainAlert i).id]).length > st.max_size) := by
        simp only [List.length_append, List.length_singleton, List.length_cons,
          List.length_nil, gt_iff_lt, Nat.not_lt]
        simp only [List.length_cons] at hlen
        omega
      have hproc : dedup_process pick st (mkPlainAlert i) =
          (some (mkPlainAlert i), { st with seen := st.seen ++ [i] }) := by
        unfold dedup_process
        rw [if_neg hfresh, if_neg hov]
        rfl
      have hih := ih { st with seen := st.seen ++ [i] }
        (by simpa using hnd)
        (by simp only [List.length_append, List.length_singleton, List.length_nil]
            simp only [List.length_cons] at hlen
            omega)
      have hstep : dedupRun pick st (mkPlainAlert i :: List.map mkPlainAlert ids) =
          ((dedup_process pick st (mkPlainAlert i)).1 ::
            (dedupRun pick (dedup_process pick st (mkPlainAlert i)).2
              (List.map mkPlainAlert ids)).1,
           (dedupRun pick (dedup_process pick st (mkPlainAlert i)).2
              (List.map mkPlainAlert ids)).2) := rfl
      rw [List.map_cons, hstep, hproc, hih]
      simp

theorem idsA_length : idsA.length = 1000 := by
  rw [show idsA = (List.range 1000).map aId from rfl, List.length_map, List.length_range]

/-- Processing a 1001st fresh id with dropLast eviction: the alert passes
but its own id is evicted immediately, leaving the seen set unchanged. -/
theorem dedup_process_overflow (ids : List String) (b : String) (hb : b ∉ ids)
    (hlen : ids.length = 1000) :
    dedup_process (fun l => l.dropLast) { seen := ids, max_size := 1000 } (mkPlainAlert b) =
      (some (mkPlainAlert b), { seen := ids, max_size := 1000 }) := by
  have hfresh : ¬ (ids.contains (mkPlainAlert b).id = true) := by
    intro hc
    exact hb (List.elem_iff.mp hc)
  have hov : (ids ++ [(mkPlainAlert b).id]).length > (1000 : Nat) := by
    simp only [List.length_append, List.length_singleton, hlen, gt_iff_lt]
    omega
  unfold dedup_process
  rw [if_neg hfresh, if_pos hov]
  simp only [List.dropLast_concat]

/-- Capacity is preserved by LRUCache.add. -/
theorem lru_add_capacity (c : LRUCache) (k : String) :
    ((c.add k).2).capacity = c.capacity := by
  unfold LRUCache.add
  by_cases hc : c.cache.contains k = true
  · rw [if_pos hc]
  · rw [if_neg hc]

/-- Capacity is preserved along an LRU dedup run. -/
theorem lruDedupRun_capacity (as : List Alert) : ∀ c : LRUCache,
    ((lruDedupRun c as).2).capacity = c.capacity := by
  induction as with
  | nil => intro c; rfl
  | cons a as ih =>
      intro c
      have := ih ((c.add a.id).2)
      simpa [lruDedupRun, lruDedupStep, lru_add_capacity] using this

/-- With capacity at least one, a key just added to an LRU cache is in the
cache: eviction only ever removes the oldest entry, never the newest. -/
theorem lru_add_mem (c : LRUCache) (k : String) (hcap : 1 ≤ c.capacity) :
    k ∈ ((c.add k).2).cache := by
  unfold LRUCache.add
  by_cases hc : c.cache.contains k = true
  · rw [if_pos hc]
    simp
  · rw [if_neg hc]
    show k ∈ (if (c.cache ++ [k]).length > c.capacity then (c.cache ++ [k]).tail
        else c.cache ++ [k])
    by_cases hov : (c.cache ++ [k]).length > c.capacity
    · rw [if_pos hov]
      cases hcache : c.cache with
      | nil =>
          exfalso
          rw [hcache] at hov
          simp at hov
          omega
      | cons x xs => simp
    · rw [if_neg hov]
      simp

theorem dedupRun_cons_fst (pick : List String → List String) (st : DedupState)
    (a : Alert) (as : List Alert) :
    (dedupRun pick st (a :: as)).1 =
      (dedup_process pick st a).1 ::
        (dedupRun pick (dedup_process pick st a).2 as).1 := rfl

theorem dedupRun_nil_fst (pick : List String → List String) (st : DedupState) :
    (dedupRun pick st []).1 = [] := rfl

theorem lruDedupRun_cons_fst (c : LRUCache) (a : Alert) (as : List Alert) :
    (lruDedupRun c (a :: as)).1 =
      (lruDedupStep c a).1 :: (lruDedupRun (lruDedupStep c a).2 as).1 := rfl

theorem lruDedupRun_nil_fst (c : LRUCache) : (lruDedupRun c []).1 = [] := rfl

theorem lruDedupStep_fst (c : LRUCache) (a : Alert) :
    (lruDedupStep c a).1 = (if (c.add a.id).1 then some a else none) := rfl

theorem lruDedupStep_snd (c : LRUCache) (a : Alert) :
    (lruDedupStep c a).2 = (c.add a.id).2 := rfl

theorem dedupRun_append (pick : List String → List String) (xs ys : List Alert) :
    ∀ st : DedupState,
    dedupRun pick st (xs ++ ys) =
      ((dedupRun pick st xs).1 ++ (dedupRun pick (dedupRun pick st xs).2 ys).1,
        (dedupRun pick (dedupRun pick st xs).2 ys).2) := by
  induction xs with
  | nil => intro st; simp [dedupRun]
  | cons x xs ih => intro st; simp [dedupRun, ih]

theorem lruDedupRun_append (xs ys : List Alert) : ∀ c : LRUCache,
    lruDedupRun c (xs ++ ys) =
      ((lruDedupRun c xs).1 ++ (lruDedupRun (lruDedupRun c xs).2 ys).1,
        (lruDedupRun (lruDedupRun c xs).2 ys).2) := by
  induction xs with
  | nil => intro c; simp [lruDedupRun]
  | cons x xs ih => intro c; simp [lruDedupRun, ih]

theorem getLast?_append_pair {α : Type} (l : List α) (x y : α) :
    (l ++ [x, y]).getLast? = some y := by
  have hsplit : l ++ [x, y] = (l ++ [x]) ++ [y] := by simp
  rw [hsplit, List.getLast?_concat]

theorem contains_eq_true_of_mem {l : List String} {k : String} (h : k ∈ l) :
    l.contains k = true := List.elem_iff.mpr h

/-- Adding a key that is already in the cache returns false. -/
theorem lru_add_seen_false (c : LRUCache) (k : String) (hmem : k ∈ c.cache) :
    (c.add k).1 = false := by
  unfold LRUCache.add
  rw [if_pos (contains_eq_true_of_mem hmem)]

/-- Decisions of the set-based dedup on a sequence of 1000 fresh distinct
ids followed by a repeated 1001st id: every step passes, including the
repeat, because dropLast eviction removed the 1001st id right away. -/
theorem dedup_set_side (ids : List String) (b : String) (hnd : (ids ++ [b]).Nodup)
    (hlen : ids.length = 1000) :
    (dedupRun (fun l => l.dropLast) { seen := [], max_size := 1000 }
        (ids.map mkPlainAlert ++ [mkPlainAlert b, mkPlainAlert b])).1 =
      ids.map (fun i => some (mkPlainAlert i)) ++
        [some (mkPlainAlert b), some (mkPlainAlert b)] := by
  have hb : b ∉ ids := fun hm => (List.disjoint_of_nodup_append hnd) hm (by simp)
  have hnodupA : ids.Nodup := (List.nodup_append.mp hnd).1
  have hA := dedupRun_fresh (fun l => l.dropLast) ids { seen := [], max_size := 1000 }
    (by simpa using hnodupA) (by simp [hlen])
  have happ := dedupRun_append (fun l => l.dropLast)
    (ids.map mkPlainAlert) [mkPlainAlert b, mkPlainAlert b]
    { seen := [], max_size := 1000 }
  rw [happ, hA]
  show List.map (fun i => some (mkPlainAlert i)) ids ++
      (dedupRun (fun l => l.dropLast) { seen := ids, max_size := 1000 }
        [mkPlainAlert b, mkPlainAlert b]).1 = _
  congr 1
  simp only [dedupRun_cons_fst, dedupRun_nil_fst, dedup_process_overflow ids b hb hlen]

/-- Decisions of any recency-cache-backed dedup (capacity ≥ 1) on such a
sequence: the final, repeated id is dropped, because a recency cache never
evicts the key it has just added. -/
theorem dedup_lru_side (cap : Nat) (hcap : 1 ≤ cap) (ids : List String) (b : String) :
    ∃ d1 d, (lruDedupRun { capacity := cap, cache := [] }
        (ids.map mkPlainAlert ++ [mkPlainAlert b, mkPlainAlert b])).1 = d1 ++ [d, none] := by
  rw [lruDedupRun_append]
  have hcapeq := lruDedupRun_capacity (ids.map mkPlainAlert)
    { capacity := cap, cache := [] }
  generalize hc1 : (lruDedupRun { capacity := cap, cache := [] } (ids.map mkPlainAlert)).2 = c1
  rw [hc1] at hcapeq
  have hmem : (mkPlainAlert b).id ∈ ((c1.add (mkPlainAlert b).id).2).cache :=
    lru_add_mem c1 (mkPlainAlert b).id (by rw [hcapeq]; exact hcap)
  have hdrop : (((c1.add (mkPlainAlert b).id).2).add (mkPlainAlert b).id).1 = false :=
    lru_add_seen_false _ _ hmem
  refine ⟨(lruDedupRun { capacity := cap, cache := [] } (ids.map mkPlainAlert)).1,
    (if (c1.add (mkPlainAlert b).id).1 then some (mkPlainAlert b) else none), ?_⟩
  simp only [lruDedupRun_cons_fst, lruDedupRun_nil_fst, lruDedupStep_fst,
    lruDedupStep_snd, hdrop]
  simp

/-- C4 counterexample: the set-backed dedup processor of the source is not
backed by a recency cache.  With the legal set.pop choice that removes the
newest element, the 1001st distinct id is evicted the moment it is added, so
an immediately repeated copy of it passes again — while a recency cache of
any capacity ≥ 1000 would still hold the id and drop the repeat. -/
theorem dedup_not_backed_by_recency_cache : ¬ DedupClaimC4 := by
  intro h
  obtain ⟨cap, hcap, hbeh⟩ := h.2 (fun l => l.dropLast) isSetPop_dropLast
  obtain ⟨d1, d, hlru⟩ := dedup_lru_side cap (by omega) idsA bId
  have hrun := hbeh seqC4
  rw [show seqC4 = idsA.map mkPlainAlert ++ [mkPlainAlert bId, mkPlainAlert bId] from rfl,
    dedup_set_side idsA bId idsA_bId_nodup idsA_length, hlru] at hrun
  have h1 : (idsA.map (fun i => some (mkPlainAlert i)) ++
      [some (mkPlainAlert bId), some (mkPlainAlert bId)]).getLast? =
      some (some (mkPlainAlert bId)) := getLast?_append_pair _ _ _
  rw [hrun, getLast?_append_pair] at h1
  simp at h1

/-- C4 (amended): per-id idempotence of DedupProcessor.process holds — an id
still in the seen set is dropped with the state unchanged, a fresh id passes
— and the seen set is keyed on Alert.id, bounded by the capacity (default
1000); but eviction removes an arbitrary element of the set (set.pop), so
the backing store is a bounded set, not a recency cache. -/
theorem dedup_process_idempotent_bounded (pick : List String → List String)
    (hpick : IsSetPop pick) (st : DedupState) (a : Alert) (hnd : st.seen.Nodup) :
    (a.id ∈ st.seen → dedup_process pick st a = (none, st)) ∧
    (a.id ∉ st.seen → (dedup_process pick st a).1 = some a) ∧
    (st.seen.length ≤ st.max_size →
      ((dedup_process pick st a).2).seen.length ≤ st.max_size) ∧
    ({} : DedupState).max_size = 1000 := by
  refine ⟨?_, ?_, ?_, rfl⟩
  · intro hmem
    unfold dedup_process
    rw [if_pos (List.elem_iff.mpr hmem)]
  · intro hmem
    have hc : ¬ (st.seen.contains a.id = true) := fun hc => hmem (List.elem_iff.mp hc)
    unfold dedup_process
    rw [if_neg hc]
    by_cases hov : (st.seen ++ [a.id]).length > st.max_size
    · rw [if_pos hov]
    · rw [if_neg hov]
  · intro hbound
    by_cases hc : st.seen.contains a.id = true
    · unfold dedup_process
      rw [if_pos hc]
      exact hbound
    · have hmem : a.id ∉ st.seen := fun hm => hc (List.elem_iff.mpr hm)
      unfold dedup_process
      rw [if_neg hc]
      by_cases hov : (st.seen ++ [a.id]).length > st.max_size
      · rw [if_pos hov]
        have hne : st.seen ++ [a.id] ≠ [] := by simp
        have hnd' : (st.seen ++ [a.id]).Nodup := by
          simp [List.nodup_append, hnd, hmem]
        obtain ⟨x, hx, hpx⟩ := hpick (st.seen ++ [a.id]) hne hnd'
        show (pick (st.seen ++ [a.id])).length ≤ st.max_size
        rw [hpx, List.length_erase_of_mem hx]
        simp only [List.length_append, List.length_singleton]
        omega
      · rw [if_neg hov]
        show (st.seen ++ [a.id]).length ≤ st.max_size
        simp only [gt_iff_lt, Nat.not_lt] at hov
        exact hov

/-- Witness for the amended C4 theorem: a seen id is dropped with the state
unchanged, and a fresh id passes, at concrete inputs. -/
theorem dedup_process_idempotent_bounded_witness :
    dedup_process (fun l => l.dropLast) { seen := ["x"], max_size := 1000 }
        (mkPlainAlert "x") = (none, { seen := ["x"], max_size := 1000 }) ∧
    (dedup_process (fun l => l.dropLast) { seen := [], max_size := 1000 }
        (mkPlainAlert "x")).1 = some (mkPlainAlert "x") := by
  have h1 := dedup_process_idempotent_bounded (fun l => l.dropLast) isSetPop_dropLast
    { seen := ["x"], max_size := 1000 } (mkPlainAlert "x") (by decide)
  have h2 := dedup_process_idempotent_bounded (fun l => l.dropLast) isSetPop_dropLast
    { seen := [], max_size := 1000 } (mkPlainAlert "x") (by decide)
  exact ⟨h1.1 (by decide), h2.2.1 (by decide)⟩

/-- Python str.zfill on the character list: left-pad with zeros to width w,
keeping a leading sign character in front. -/
def zfillL (l : List Char) (w : Nat) : List Char :=
  if w ≤ l.length then l
  else
    match l with
    | [] => List.replicate w '0'
    | c :: rest =>
        if c = '+' ∨ c = '-' then c :: (List.replicate (w - l.length) '0' ++ rest)
        else List.replicate (w - l.length) '0' ++ l

/-- Python str.zfill(w). -/
def zfill (s : String) (w : Nat) : String := ⟨zfillL s.data w⟩

theorem zfillL_of_le {l : List Char} {w : Nat} (h : w ≤ l.length) : zfillL l w = l := by
  unfold zfillL
  rw [if_pos h]

theorem zfillL_length (l : List Char) (w : Nat) : (zfillL l w).length = max l.length w := by
  unfold zfillL
  by_cases h : w ≤ l.length
  · rw [if_pos h]
    omega
  · rw [if_neg h]
    cases l with
    | nil =>
        simp only [List.length_nil] at h
        simp only [List.length_replicate, List.length_nil]
        omega
    | cons c rest =>
        simp only [List.length_cons] at h
        dsimp only
        by_cases hc : c = '+' ∨ c = '-'
        · rw [if_pos hc]
          simp only [List.length_cons, List.length_append, List.length_replicate]
          omega
        · rw [if_neg hc]
          simp only [List.length_append, List.length_replicate, List.length_cons]
          omega

/-- Zero-padding is idempotent: padding an already padded CIK changes
nothing. -/
theorem zfill_zfill (s : String) (w : Nat) : zfill (zfill s w) w = zfill s w := by
  show String.mk (zfillL (zfillL s.data w) w) = _
  rw [zfillL_of_le]
  · rfl
  · rw [zfillL_length]
    omega

/-- Entry of the cached company_tickers.json table: cik_str, ticker,
title. -/
structure TickerEntry where
  cik_str : String
  ticker : String
  title : String
deriving DecidableEq, Repr

/-- The _cik_to_ticker dict built by TickerMapper._load_from_cache
(ticker_mapper.py lines 52-70): for each entry the write with the 10-digit
zero-padded CIK happens first, then the write with the raw CIK.  The
association list keeps the write order; lookups take the last write, as a
Python dict does. -/
def loadCikToTicker : List TickerEntry → List (String × String)
  | [] => []
  | e :: es => (zfill e.cik_str 10, e.ticker) :: (e.cik_str, e.ticker) :: loadCikToTicker es

/-- dict.get(k): the value of the last write of k, if any. -/
def dGet (m : List (String × String)) (k : String) : Option String :=
  (m.reverse.find? (fun p => p.1 == k)).map Prod.snd

/-- Python x or y on optional strings: None and the empty string are
falsy. -/
def pyOrStr (a b : Option String) : Option String :=
  match a with
  | some s => if s = "" then b else some s
  | none => b

/-- TickerMapper.cik_to_ticker (ticker_mapper.py lines 103-107): look up the
zero-padded CIK first, fall back to the raw CIK. -/
def cik_to_ticker (m : List (String × String)) (cik : String) : Option String :=
  pyOrStr (dGet m (zfill cik 10)) (dGet m cik)

theorem loadCikToTicker_mem (entries : List TickerEntry) :
    ∀ p ∈ loadCikToTicker entries, ∃ e ∈ entries,
      p.2 = e.ticker ∧ (p.1 = zfill e.cik_str 10 ∨ p.1 = e.cik_str) := by
  induction entries with
  | nil =>
      intro p hp
      simp [loadCikToTicker] at hp
  | cons e es ih =>
      intro p hp
      simp only [loadCikToTicker, List.mem_cons] at hp
      rcases hp with h | h | h
      · exact ⟨e, by simp, by simp [h]⟩
      · exact ⟨e, by simp, by simp [h]⟩
      · obtain ⟨e', he', hp'⟩ := ih p h
        exact ⟨e', by simp [he'], hp'⟩

theorem loadCikToTicker_mem_entries (entries : List TickerEntry) (e : TickerEntry)
    (he : e ∈ entries) :
    (zfill e.cik_str 10, e.ticker) ∈ loadCikToTicker entries ∧
    (e.cik_str, e.ticker) ∈ loadCikToTicker entries := by
  induction entries with
  | nil => simp at he
  | cons e' es ih =>
      rcases List.mem_cons.mp he with h | h
      · subst h
        simp [loadCikToTicker]
      · have hih := ih h
        exact ⟨by simp [loadCikToTicker, hih.1], by simp [loadCikToTicker, hih.2]⟩

theorem dGet_some_mem {m : List (String × String)} {k v : String}
    (h : dGet m k = some v) : (k, v) ∈ m := by
  unfold dGet at h
  cases hf : m.reverse.find? (fun p => p.1 == k) with
  | none =>
      rw [hf] at h
      simp at h
  | some q =>
      rw [hf] at h
      have hq := List.mem_of_find?_eq_some hf
      have hpred := List.find?_some hf
      obtain ⟨q1, q2⟩ := q
      simp at hpred h
      rw [← hpred, ← h]
      exact List.mem_reverse.mp hq

theorem mem_dGet_ne_none {m : List (String × String)} {k v : String}
    (h : (k, v) ∈ m) : dGet m k ≠ none := by
  unfold dGet
  cases hf : m.reverse.find? (fun p => p.1 == k) with
  | some q => simp
  | none =>
      have := List.find?_eq_none.mp hf (k, v) (List.mem_reverse.mpr h)
      simp at this

theorem dGet_load_ticker_ne_empty (entries : List TickerEntry)
    (h : ∀ e ∈ entries, e.ticker ≠ "") (k v : String)
    (hget : dGet (loadCikToTicker entries) k = some v) : v ≠ "" := by
  have hmem := dGet_some_mem hget
  obtain ⟨e, he, hv, -⟩ := loadCikToTicker_mem entries (k, v) hmem
  rw [show ((k, v) : String × String).2 = v from rfl] at hv
  rw [hv]
  exact h e he

theorem dGet_load_closed (entries : List TickerEntry) (k : String)
    (h : dGet (loadCikToTicker entries) k ≠ none) :
    dGet (loadCikToTicker entries) (zfill k 10) ≠ none := by
  cases hget : dGet (loadCikToTicker entries) k with
  | none => exact absurd hget h
  | some v =>
      have hmem := dGet_some_mem hget
      obtain ⟨e, he, -, hk⟩ := loadCikToTicker_mem entries (k, v) hmem
      rw [show ((k, v) : String × String).1 = k from rfl] at hk
      rcases hk with hk | hk
      · rw [hk, zfill_zfill, ← hk]
        exact h
      · rw [hk]
        exact mem_dGet_ne_none (loadCikToTicker_mem_entries entries e he).1

/-- C6 (amended): provided every ticker in the loaded table is non-empty,
cik_to_ticker is insensitive to 10-digit zero-padding of the looked-up CIK:
each CIK is inserted both raw and zero-padded, and the padded lookup is
consulted first. -/
theorem cik_to_ticker_padding_insensitive (entries : List TickerEntry) (c : String)
    (h : ∀ e ∈ entries, e.ticker ≠ "") :
    cik_to_ticker (loadCikToTicker entries) c =
      cik_to_ticker (loadCikToTicker entries) (zfill c 10) := by
  unfold cik_to_ticker
  rw [zfill_zfill]
  cases hp : dGet (loadCikToTicker entries) (zfill c 10) with
  | some v =>
      have hv : v ≠ "" := dGet_load_ticker_ne_empty entries h _ _ hp
      simp [pyOrStr, hv]
  | none =>
      have hc : dGet (loadCikToTicker entries) c = none := by
        by_contra hne
        exact (dGet_load_closed entries c hne) hp
      simp [pyOrStr, hc]

/-- Witness for the amended C6 theorem at a one-entry table and a concrete
CIK. -/
theorem cik_to_ticker_padding_insensitive_witness :
    (∀ e ∈ ([{ cik_str := "320193", ticker := "AAPL", title := "Apple Inc" }] :
        List TickerEntry), e.ticker ≠ "") ∧
    cik_to_ticker
        (loadCikToTicker [{ cik_str := "320193", ticker := "AAPL", title := "Apple Inc" }])
        "320193" =
      cik_to_ticker
        (loadCikToTicker [{ cik_str := "320193", ticker := "AAPL", title := "Apple Inc" }])
        (zfill "320193" 10) := by
  constructor
  · decide
  · exact cik_to_ticker_padding_insensitive _ "320193" (by decide)

/-- Table with an empty ticker on the padded CIK, defeating the or-fallback
in cik_to_ticker. -/
def tickerTableCE : List TickerEntry :=
  [{ cik_str := "320193", ticker := "AAPL", title := "Apple Inc" },
   { cik_str := "0000320193", ticker := "", title := "Ghost Corp" }]

/-- C6 counterexample: with this loadable table, looking up the raw CIK and
its 10-digit zero-padded form return different results (the empty ticker is
Python-falsy, so only the raw lookup falls back), refuting padding
insensitivity for every CIK string over every loaded table. -/
theorem cik_to_ticker_padding_counterexample :
    zfill "320193" 10 = "0000320193" ∧
    cik_to_ticker (loadCikToTicker tickerTableCE) "320193" = some "AAPL" ∧
    cik_to_ticker (loadCikToTicker tickerTableCE) (zfill "320193" 10) = some "" ∧
    (some "AAPL" : Option String) ≠ some "" := by
  refine ⟨by decide, by decide, by decide, by decide⟩

/-- Python s[:n] character slice. -/
def pyTake (s : String) (n : Nat) : String := ⟨s.data.take n⟩

/-- Python len(s) in characters. -/
def pyLen (s : String) : Nat := s.data.length

/-- SECEdgarCollector._clean_summary (sec_edgar.py lines 213-222).
BeautifulSoup's HTML text extraction is external: stripped stands for
soup.get_text(separator, strip) applied to the summary, and parse_ok is
false when BeautifulSoup raised, in which case the except branch truncates
the raw summary instead. -/
def clean_summary (summary stripped : String) (parse_ok : Bool) : String :=
  if summary = "" then ""
  else if parse_ok then
    (if pyLen stripped > 500 then pyTake stripped 500 else stripped)
  else pyTake summary 500

/-- Summary string built by FDACollector._parse_approval_row (fda.py line
135); no truncation is applied. -/
def fda_summary (drug_name active_ingredient approval_date company : String) : String :=
  drug_name ++ " (" ++ active_ingredient ++ ") approved on " ++ approval_date ++
    ". Company: " ++ company

/-- C5 (amended): every SEC filing alert summary is at most 500 characters
after _clean_summary, whichever branch is taken. -/
theorem clean_summary_le_500 (summary stripped : String) (parse_ok : Bool) :
    pyLen (clean_summary summary stripped parse_ok) ≤ 500 := by
  unfold clean_summary
  by_cases h1 : summary = ""
  · simp [h1, pyLen]
  · rw [if_neg h1]
    cases parse_ok with
    | true =>
        rw [if_pos rfl]
        by_cases h3 : pyLen stripped > 500
        · rw [if_pos h3]
          simp only [pyLen, pyTake, List.length_take]
          omega
        · rw [if_neg h3]
          unfold pyLen at h3 ⊢
          omega
    | false =>
        rw [if_neg (by simp)]
        simp only [pyLen, pyTake, List.length_take]
        omega

set_option maxRecDepth 4000 in
/-- C5 counterexample: a 600-character drug name makes the FDA approval
alert summary exceed 500 characters — the FDA collector performs no
truncation. -/
theorem fda_summary_exceeds_500_counterexample :
    pyLen (fda_summary ⟨List.replicate 600 'a'⟩ "x" "2025-03-14" "Acme") > 500 := by
  decide

/-- Values carried by a TradingView quote-session-data frame; machine floats
are idealised as rationals. -/
structure QuoteValues where
  lp : Option ℚ := none
  price : Option ℚ := none
  chp : Option ℚ := none
  ch_p : Option ℚ := none

/-- Python x or y on optional floats: None and 0.0 are falsy. -/
def pyOrQ (a b : Option ℚ) : Option ℚ :=
  match a with
  | some x => if x = 0 then b else some x
  | none => b

/-- Round to the nearest integer with ties to even — the rounding of Python
float formatting, applied to the rational model of the value. -/
def roundHalfEven (q : ℚ) : ℤ :=
  if Int.fract q < 1 / 2 then ⌊q⌋
  else if 1 / 2 < Int.fract q then ⌊q⌋ + 1
  else if Even ⌊q⌋ then ⌊q⌋ else ⌊q⌋ + 1

/-- Two-digit zero-padded decimal rendering. -/
def natPad2 (n : Nat) : String := if n < 10 then "0" ++ Nat.repr n else Nat.repr n

/-- Magnitude part of .2f formatting for a non-negative rational. -/
def fmt2mag (q : ℚ) : String :=
  let n := (roundHalfEven (q * 100)).toNat
  Nat.repr (n / 100) ++ "." ++ natPad2 (n % 100)

/-- Python f-string .2f formatting on the rational model. -/
def pyFormat2f (q : ℚ) : String :=
  if q < 0 then "-" ++ fmt2mag (-q) else fmt2mag q

/-- Python int(x): truncation toward zero. -/
def pyInt (q : ℚ) : Int := q.num / (q.den : Int)

/-- Python str.split on a single separator character. -/
def splitOnChar (sep : Char) : List Char → List (List Char)
  | [] => [[]]
  | c :: rest =>
      let r := splitOnChar sep rest
      if c = sep then [] :: r
      else (c :: r.headD []) :: r.tail

/-- symbol.split(":")[-1] if ":" in symbol else symbol (tradingview.py line
198). -/
def tickerOf (symbol : String) : String :=
  if symbol.data.contains ':' then ⟨(splitOnChar ':' symbol.data).getLastD []⟩ else symbol

/-- TradingViewCollector._create_alert (tradingview.py lines 196-224).  The
company lookup through the ticker mapper, the wall-clock timestamp string
and the display form of the price are external inputs. -/
def _create_alert (symbol : String) (company_lookup : Option String)
    (ts_str price_repr : String) (change_pct : ℚ) : Alert :=
  let ticker := tickerOf symbol
  let company := company_lookup.getD ticker
  let direction := if change_pct > 0 then "UP" else "DOWN"
  let priority := if |change_pct| > 20 then AlertPriority.high else AlertPriority.medium
  { id := "tv_" ++ ticker ++ "_" ++ ts_str ++ "_" ++ Nat.repr (pyInt (change_pct * 100)).natAbs,
    type := .stockMovement,
    priority := priority,
    ticker := some ticker,
    company := company,
    title := "Stock Move: " ++ ticker ++ " " ++ direction ++ " " ++ pyFormat2f change_pct ++ "%",
    summary := company ++ " (" ++ ticker ++ ") moved " ++ pyFormat2f change_pct ++
      "%. Price: " ++ price_repr,
    url := "https://www.tradingview.com/symbols/" ++ symbol ++ "/",
    source := "TradingView",
    timestamp := 0,
    raw_data := none }

/-- TradingViewCollector._process_quote (tradingview.py lines 186-194):
returns the alert enqueued for the frame, if any. -/
def _process_quote (threshold_pct : ℚ) (symbol : String) (v : QuoteValues)
    (company_lookup : Option String) (ts_str price_repr : String) : Option Alert :=
  match pyOrQ v.chp v.ch_p with
  | none => none
  | some p =>
      if |p| ≥ threshold_pct then
        some (_create_alert symbol company_lookup ts_str price_repr p)
      else none

theorem _process_quote_eq (t : ℚ) (symbol : String) (v : QuoteValues)
    (cl : Option String) (ts pr : String) (p : ℚ)
    (hchp : pyOrQ v.chp v.ch_p = some p) :
    _process_quote t symbol v cl ts pr =
      (if |p| ≥ t then some (_create_alert symbol cl ts pr p) else none) := by
  unfold _process_quote
  rw [hchp]

/-- C7 (amended): for a quote frame carrying a non-zero change percentage p
and threshold t, no alert is enqueued when the magnitude is below t, and
exactly one alert is enqueued when it reaches t, with priority High iff the
magnitude exceeds 20 (Medium otherwise) and a title containing the direction
(UP for positive, DOWN for negative) followed by the magnitude to two
decimal places.  A frame with chp equal to 0 is treated as missing change
data (Python or-falsiness) and never produces an alert. -/
theorem tv_quote_alert_rule (t : ℚ) (symbol : String) (p : ℚ) (cl : Option String)
    (ts pr : String) (hp : p ≠ 0) :
    (|p| < t → _process_quote t symbol { chp := some p } cl ts pr = none) ∧
    (|p| ≥ t → ∃ a, _process_quote t symbol { chp := some p } cl ts pr = some a ∧
      a.priority = (if |p| > 20 then AlertPriority.high else AlertPriority.medium) ∧
      (a.priority = AlertPriority.high ↔ |p| > 20) ∧
      ∃ s1 s2, a.title = s1 ++ (if p > 0 then "UP" else "DOWN") ++ s2 ++ fmt2mag |p| ++ "%") := by
  have hor : pyOrQ (QuoteValues.chp { chp := some p }) (QuoteValues.ch_p { chp := some p }) =
      some p := by
    simp [pyOrQ, hp]
  constructor
  · intro hlt
    rw [_process_quote_eq t symbol { chp := some p } cl ts pr p hor,
      if_neg (not_le.mpr hlt)]
  · intro hge
    rw [_process_quote_eq t symbol { chp := some p } cl ts pr p hor, if_pos hge]
    refine ⟨_, rfl, ?_, ?_, ?_⟩
    · rfl
    · have hpr : (_create_alert symbol cl ts pr p).priority =
          (if |p| > 20 then AlertPriority.high else AlertPriority.medium) := rfl
      rw [hpr]
      by_cases h20 : |p| > 20
      · simp [h20]
      · simp [h20]
    · have htitle : (_create_alert symbol cl ts pr p).title =
          "Stock Move: " ++ tickerOf symbol ++ " " ++ (if p > 0 then "UP" else "DOWN") ++
            " " ++ pyFormat2f p ++ "%" := rfl
      by_cases hpos : p > 0
      · refine ⟨"Stock Move: " ++ tickerOf symbol ++ " ", " ", ?_⟩
        rw [htitle]
        have hfmt : pyFormat2f p = fmt2mag |p| := by
          unfold pyFormat2f
          rw [if_neg (not_lt.mpr (le_of_lt hpos)), abs_of_pos hpos]
        rw [hfmt]
      · have hneg : p < 0 := lt_of_le_of_ne (not_lt.mp hpos) hp
        refine ⟨"Stock Move: " ++ tickerOf symbol ++ " ", " -", ?_⟩
        rw [htitle]
        have hfmt : pyFormat2f p = "-" ++ fmt2mag |p| := by
          unfold pyFormat2f
          rw [if_pos hneg, abs_of_neg hneg]
        rw [hfmt]
        have hm : ∀ X f : String, (X ++ " ") ++ ("-" ++ f) = (X ++ " -") ++ f := by
          intro X f
          rw [← String.append_assoc, String.append_assoc X " " "-",
            show (" " : String) ++ "-" = " -" from by decide]
        rw [hm]

/-- Witness for the amended C7 theorem: p = 25, threshold 10 — one alert,
High priority, UP direction. -/
theorem tv_quote_alert_rule_witness :
    ((25 : ℚ) ≠ 0) ∧ (|(25 : ℚ)| ≥ 10) ∧
    (∃ a, _process_quote 10 "NASDAQ:AAPL" { chp := some 25 } none "ts" "pr" = some a ∧
      a.priority = (if |(25 : ℚ)| > 20 then AlertPriority.high else AlertPriority.medium) ∧
      (a.priority = AlertPriority.high ↔ |(25 : ℚ)| > 20) ∧
      ∃ s1 s2, a.title = s1 ++ (if (25 : ℚ) > 0 then "UP" else "DOWN") ++ s2 ++
        fmt2mag |(25 : ℚ)| ++ "%") :=
  ⟨by norm_num, by norm_num,
    (tv_quote_alert_rule 10 "NASDAQ:AAPL" 25 none "ts" "pr" (by norm_num)).2 (by norm_num)⟩

/-- C7 counterexample: with threshold 0 and a frame whose chp is exactly 0,
the magnitude reaches the threshold yet no alert is enqueued — 0.0 is falsy
in values.get("chp") or values.get("ch_p"). -/
theorem tv_zero_change_counterexample :
    |(0 : ℚ)| ≥ (0 : ℚ) ∧
    _process_quote 0 "NASDAQ:AAPL" { chp := some 0 } none "20250101000000" "100" = none := by
  constructor
  · simp
  · rfl

/-- Behaviour of one notifier's send call: it completes with a Bool or
raises (notifier.py: the send methods of TelegramNotifier, EmailNotifier and
WebhookNotifier return Bool and may raise). -/
def NotifierFn : Type := Alert → Option String → Except String Bool

/-- asyncio.gather with return_exceptions=True: every awaited task runs to
completion, and a raised exception becomes that task's slot in the
aggregated result list instead of propagating and cancelling the others. -/
def gatherReturnExceptions (tasks : List (Except String Bool)) : List (Except String Bool) :=
  tasks

/-- MultiNotifier.send (notifier.py lines 230-240): gather all notifier
sends with return_exceptions=True, count the results that are True, and
return whether any notifier succeeded. -/
def multi_send (notifiers : List NotifierFn) (a : Alert) (ai : Option String) :
    List (Except String Bool) × Bool :=
  let results := gatherReturnExceptions (notifiers.map (fun n => n a ai))
  (results,
    decide (0 < (results.filter
      (fun r => match r with | .ok true => true | _ => false)).length))

theorem is_ok_true_iff (r : Except String Bool) :
    (match r with | Except.ok true => true | _ => false) = true ↔ r = Except.ok true := by
  cases r with
  | error e => simp
  | ok b => cases b <;> simp

/-- C8: the fan-out send produces one result slot per configured notifier;
the i-th slot is exactly the i-th notifier's own outcome on the alert, so
every notifier is invoked exactly once and one notifier raising does not
prevent any other from being invoked or completing; the call itself always
completes, returning whether any notifier succeeded. -/
theorem multi_send_isolates_failures (notifiers : List NotifierFn) (a : Alert)
    (ai : Option String) :
    (multi_send notifiers a ai).1.length = notifiers.length ∧
    (∀ i (h : i < notifiers.length),
      (multi_send notifiers a ai).1.get
          ⟨i, by simpa [multi_send, gatherReturnExceptions] using h⟩ =
        (notifiers.get ⟨i, h⟩) a ai) ∧
    ((multi_send notifiers a ai).2 = true ↔
      ∃ r ∈ (multi_send notifiers a ai).1, r = Except.ok true) := by
  refine ⟨?_, ?_, ?_⟩
  · simp [multi_send, gatherReturnExceptions]
  · intro i h
    simp [multi_send, gatherReturnExceptions]
  · simp only [multi_send, gatherReturnExceptions, decide_eq_true_iff]
    rw [List.length_pos]
    constructor
    · intro hne
      obtain ⟨r, hr⟩ := List.exists_mem_of_ne_nil _ hne
      have hmem := List.mem_of_mem_filter hr
      have hp := List.of_mem_filter hr
      exact ⟨r, hmem, (is_ok_true_iff r).mp hp⟩
    · rintro ⟨r, hmem, hr⟩
      intro hnil
      have : r ∈ List.filter (fun r => match r with | .ok true => true | _ => false)
          (notifiers.map (fun n => n a ai)) :=
        List.mem_filter.mpr ⟨hmem, (is_ok_true_iff r).mpr hr⟩
      rw [hnil] at this
      simp at this

/-- Notifier that always delivers. -/
def okNotifier : NotifierFn := fun _ _ => Except.ok true

/-- Notifier whose send raises. -/
def raisingNotifier : NotifierFn := fun _ _ => Except.error "boom"

/-- Witness for C8: three notifiers, the second raising; all three slots are
present, the first and third carry their own successful outcomes, and the
method returns. -/
theorem multi_send_isolates_failures_witness :
    (multi_send [okNotifier, raisingNotifier, okNotifier] (mkPlainAlert "w") none).1.length
        = 3 ∧
    (multi_send [okNotifier, raisingNotifier, okNotifier] (mkPlainAlert "w") none).1 =
      [Except.ok true, Except.error "boom", Except.ok true] ∧
    (multi_send [okNotifier, raisingNotifier, okNotifier] (mkPlainAlert "w") none).1.get
        ⟨2, by decide⟩ = okNotifier (mkPlainAlert "w") none ∧
    (multi_send [okNotifier, raisingNotifier, okNotifier] (mkPlainAlert "w") none).2 = true := by
  refine ⟨?_, rfl, ?_, rfl⟩
  · exact (multi_send_isolates_failures [okNotifier, raisingNotifier, okNotifier]
      (mkPlainAlert "w") none).1
  · exact (multi_send_isolates_failures [okNotifier, raisingNotifier, okNotifier]
      (mkPlainAlert "w") none).2.1 2 (by decide)

/-- Minimal model of the JSON values manipulated by the AI providers'
response handling. -/
inductive PyJson where
  | jnull
  | jstr (s : String)
  | jnum (n : Int)
  | jarr (xs : List PyJson)
  | jobj (fields : List (String × PyJson))
deriving Repr

/-- dict.get(k, default): raises AttributeError on a non-dict. -/
def jGetD (j : PyJson) (k : String) (d : PyJson) : Except String PyJson :=
  match j with
  | .jobj fs => Except.ok (((fs.find? (fun p => p.1 == k)).map Prod.snd).getD d)
  | _ => Except.error "AttributeError"

/-- value[i]: raises IndexError out of range and TypeError on a non-list. -/
def jIndex (j : PyJson) (i : Nat) : Except String PyJson :=
  match j with
  | .jarr xs =>
      match xs.get? i with
      | some x => Except.ok x
      | none => Except.error "IndexError"
  | _ => Except.error "TypeError"

/-- Python whitespace stripped by str.strip(). -/
def isPySpace (c : Char) : Bool :=
  decide (c = ' ' ∨ c = '\t' ∨ c = '\n' ∨ c = '\r' ∨ c = '\x0b' ∨ c = '\x0c')

/-- Python str.strip(). -/
def pyStrip (s : String) : String :=
  ⟨((s.data.dropWhile isPySpace).reverse.dropWhile isPySpace).reverse⟩

/-- return content.strip() if content else None: null and falsy values give
None, a non-empty string is stripped, truthy non-strings raise
AttributeError at .strip(). -/
def truthyContent : PyJson → Except String (Option String)
  | .jstr s => if s = "" then Except.ok none else Except.ok (some (pyStrip s))
  | .jnull => Except.ok none
  | .jnum n => if n = 0 then Except.ok none else Except.error "AttributeError"
  | .jarr xs => if xs.isEmpty then Except.ok none else Except.error "AttributeError"
  | .jobj fs => if fs.isEmpty then Except.ok none else Except.error "AttributeError"

/-- data.get("choices", [{}])[0].get("message", {}).get("content", "") of
OpenAIProvider.analyze (ai_provider.py line 75). -/
def openai_extract (data : PyJson) : Except String (Option String) := do
  let choices ← jGetD data "choices" (.jarr [.jobj []])
  let c0 ← jIndex choices 0
  let msg ← jGetD c0 "message" (.jobj [])
  let content ← jGetD msg "content" (.jstr "")
  truthyContent content

/-- data.get("content", [{}])[0].get("text", "") of
AnthropicProvider.analyze (ai_provider.py line 170). -/
def anthropic_extract (data : PyJson) : Except String (Option String) := do
  let content ← jGetD data "content" (.jarr [.jobj []])
  let c0 ← jIndex content 0
  let t ← jGetD c0 "text" (.jstr "")
  truthyContent t

/-- HTTP response as the providers see it: status code and the result of
response.json(), which may itself raise on a malformed body. -/
structure AIHttpResponse where
  status : Nat
  body : Except String PyJson

/-- Outcome of the POST inside the try block: a transport exception or a
response. -/
inductive NetOutcome where
  | netError (msg : String)
  | response (r : AIHttpResponse)

/-- Python truthiness of the api_key attribute: None and "" are falsy. -/
def keyTruthy : Option String → Bool
  | none => false
  | some s => !(s == "")

/-- The try-block body shared by both analyze methods: a non-200 status
returns None (after a log); otherwise decode the body and run the provider's
content extraction; any step may raise. -/
def analyzeTry (extract : PyJson → Except String (Option String))
    (outcome : NetOutcome) : Except String (Option String) :=
  match outcome with
  | .netError e => Except.error e
  | .response r =>
      if r.status ≠ 200 then Except.ok none
      else do
        let data ← r.body
        extract data

/-- OpenAIProvider.analyze (ai_provider.py lines 44-81): missing credentials
return None before the try block; the whole try block is wrapped in except
Exception → log and return None. -/
def OpenAIProvider_analyze (api_key : Option String) (outcome : NetOutcome) : Option String :=
  if !(keyTruthy api_key) then none
  else
    match analyzeTry openai_extract outcome with
    | .ok r => r
    | .error _ => none

/-- AnthropicProvider.analyze (ai_provider.py lines 143-176): same shape as
the OpenAI provider with the Anthropic content extraction. -/
def AnthropicProvider_analyze (api_key : Option String) (outcome : NetOutcome) :
    Option String :=
  if !(keyTruthy api_key) then none
  else
    match analyzeTry anthropic_extract outcome with
    | .ok r => r
    | .error _ => none

/-- C9: both chat-API providers return None when credentials are missing,
None on any network error or non-200 HTTP status, and absorb every exception
of the try body into None, so analyze never raises to the notifier (its type
is a plain optional string). -/
theorem ai_analyze_null_on_failure (k : Option String) (outcome : NetOutcome) :
    (keyTruthy k = false →
      OpenAIProvider_analyze k outcome = none ∧
      AnthropicProvider_analyze k outcome = none) ∧
    (∀ e, outcome = NetOutcome.netError e →
      OpenAIProvider_analyze k outcome = none ∧
      AnthropicProvider_analyze k outcome = none) ∧
    (∀ r, outcome = NetOutcome.response r → r.status ≠ 200 →
      OpenAIProvider_analyze k outcome = none ∧
      AnthropicProvider_analyze k outcome = none) ∧
    (∀ e, analyzeTry openai_extract outcome = Except.error e →
      OpenAIProvider_analyze k outcome = none) ∧
    (∀ e, analyzeTry anthropic_extract outcome = Except.error e →
      AnthropicProvider_analyze k outcome = none) := by
  refine ⟨?_, ?_, ?_, ?_, ?_⟩
  · intro hk
    constructor <;> simp [OpenAIProvider_analyze, AnthropicProvider_analyze, hk]
  · intro e he
    subst he
    cases hkt : keyTruthy k <;>
      simp [OpenAIProvider_analyze, AnthropicProvider_analyze, analyzeTry, hkt]
  · intro r hr hstatus
    subst hr
    cases hkt : keyTruthy k <;>
      simp [OpenAIProvider_analyze, AnthropicProvider_analyze, analyzeTry, hkt, hstatus]
  · intro e he
    cases hkt : keyTruthy k <;> simp [OpenAIProvider_analyze, hkt, he]
  · intro e he
    cases hkt : keyTruthy k <;> simp [AnthropicProvider_analyze, hkt, he]

/-- Witness for C9: an empty api key and a transport error both yield None
for both providers. -/
theorem ai_analyze_null_on_failure_witness :
    keyTruthy (some "") = false ∧
    OpenAIProvider_analyze (some "") (NetOutcome.netError "connection reset") = none ∧
    AnthropicProvider_analyze (some "") (NetOutcome.netError "connection reset") = none := by
  refine ⟨by decide, ?_, ?_⟩
  · exact ((ai_analyze_null_on_failure (some "")
      (NetOutcome.netError "connection reset")).1 (by decide)).1
  · exact ((ai_analyze_null_on_failure (some "")
      (NetOutcome.netError "connection reset")).1 (by decide)).2

end Duetto
